import Mathlib

/-!
Verification of the provider-formatting core of `pydantic-prompter`
(`src/pydantic_prompter/llm_providers/model.py`).

The Python code is shallowly embedded: messages are values, the in-place
mutation performed by the Python methods is made explicit by returning the
updated message list alongside the produced output, and the call to
`random.uniform(0, 1)` is made explicit by passing the drawn sample `rnd`
as an argument.  Python's `x or default` idiom on settings values is
modelled by `pyOr*` helpers that treat `None`, `0`, the empty string and
the empty list as falsy, exactly as Python does.
-/

/-- Modelled from the spec: the `Message` value object lives in
`pydantic_prompter/common.py`, which is not part of the formatting core
source; §3 of the spec fixes its shape as `{role ∈ {system, user,
assistant}, content : text}`. -/
inductive Role where
  | system
  | user
  | assistant
deriving DecidableEq, Repr

/-- Modelled from the spec: a chat message, `{role, content}` (§3). -/
structure Message where
  role : Role
  content : String
deriving DecidableEq, Repr

/-- The optional keys of the `model_settings` mapping recognised by the
formatters (`max_gen_len`, `max_tokens`, `temperature`, `stop_sequences`,
`anthropic_version`); `none` models an absent key. -/
structure ModelSettings where
  max_gen_len : Option Nat := none
  max_tokens : Option Nat := none
  temperature : Option ℚ := none
  stop_sequences : Option (List String) := none
  anthropic_version : Option String := none
deriving DecidableEq, Repr

/-- Python `settings.get(k) or d` for a numeric value: `None` and `0` are
falsy, so both fall back to the default. -/
def pyOrQ (v : Option ℚ) (d : ℚ) : ℚ :=
  match v with
  | none => d
  | some t => if t = 0 then d else t

/-- Python `settings.get(k) or d` for an integer value (`None`/`0` falsy). -/
def pyOrNat (v : Option Nat) (d : Nat) : Nat :=
  match v with
  | none => d
  | some n => if n = 0 then d else n

/-- Python `settings.get(k) or d` for a string (`None` and `""` falsy). -/
def pyOrStr (v : Option String) (d : String) : String :=
  match v with
  | none => d
  | some s => if s = "" then d else s

/-- Python `settings.get(k) or d` for a list (`None` and `[]` falsy). -/
def pyOrList (v : Option (List String)) (d : List String) : List String :=
  match v with
  | none => d
  | some l => if l = [] then d else l

/-- The role rewrite at the top of the loop body of
`Model.fix_and_merge_messages`: when the variant does not support the
`system` role, a `system` message is demoted to `user`. -/
def demoteRole (system_role_supported : Bool) (m : Message) : Message :=
  if system_role_supported = false ∧ m.role = .system then
    { m with role := .user }
  else m

/-- One iteration of the loop of `Model.fix_and_merge_messages`.  The
accumulator `acc` is the Python list `fixed_messages` kept in reverse, so
its head is `fixed_messages[-1]`. -/
def fixAndMergeStep (system_role_supported : Bool)
    (acc : List Message) (m : Message) : List Message :=
  let m := demoteRole system_role_supported m
  match acc with
  | [] => [m]
  | last :: rest =>
    if last.role = m.role then
      { last with content := last.content ++ "\n\n" ++ m.content } :: rest
    else
      m :: last :: rest

/-- `Model.fix_and_merge_messages` (model.py lines 28–38): a left-to-right
pass that demotes `system` messages when unsupported and merges a message
into the previously accepted one when their roles coincide. -/
def fix_and_merge_messages (system_role_supported : Bool)
    (msgs : List Message) : List Message :=
  (msgs.foldl (fixAndMergeStep system_role_supported) []).reverse

/-- Helper for `normalizeSpec`: the current accepted message `cur` is kept
apart from the already emitted output; an incoming message with the same
(post-demotion) role is concatenated into `cur` with a blank-line
separator, otherwise `cur` is emitted and the incoming message becomes
current. -/
def normalizeSpecGo (system_role_supported : Bool) (cur : Message) :
    List Message → List Message
  | [] => [cur]
  | m :: ms =>
    let m := demoteRole system_role_supported m
    if m.role = cur.role then
      normalizeSpecGo system_role_supported
        { cur with content := cur.content ++ "\n\n" ++ m.content } ms
    else
      cur :: normalizeSpecGo system_role_supported m ms

/-- The normalization algorithm as the spec words it (§4.2): a single
left-to-right pass; each message is demoted from `system` to `user` when
the role is unsupported, then merged into the last accepted message when
the roles agree and appended otherwise.  Used as the comparison point for
the refinement claim about `fix_and_merge_messages`. -/
def normalizeSpec (system_role_supported : Bool) :
    List Message → List Message
  | [] => []
  | m :: ms =>
    normalizeSpecGo system_role_supported
      (demoteRole system_role_supported m) ms

/-- `Model.build_prompt` (model.py lines 66–95), with the two
jinja2-rendered scaffold strings passed as arguments (`content` is the
rendered system instruction, `hint` the rendered assistant priming hint;
jinja2 is an external library, so the rendering itself is outside the
embedding).  The method inserts a `system` scaffold message at position 0,
appends an `assistant` hint message, and normalizes with the variant's
`fix_and_merge_messages`. -/
def buildPromptWith (fixMerge : List Message → List Message)
    (content hint : String) (messages : List Message) : List Message :=
  fixMerge (⟨.system, content⟩ :: (messages ++ [⟨.assistant, hint⟩]))

/-- `Model.build_prompt` for a variant that keeps the base
`fix_and_merge_messages`, indexed by the variant's
`system_role_supported` flag. -/
def build_prompt (system_role_supported : Bool)
    (content hint : String) (messages : List Message) : List Message :=
  buildPromptWith (fix_and_merge_messages system_role_supported)
    content hint messages

/-- `Llama2.fix_and_merge_messages` (model.py lines 110–118): the base
merge, then — `add_llama_special_tokens` is `True` — `system` content is
wrapped in `<<SYS>> … <</SYS>>` and `user` content in
`[INST] … [/INST]`. -/
def llamaFixAndMergeMessages (msgs : List Message) : List Message :=
  (fix_and_merge_messages true msgs).map fun m =>
    if m.role = .system then
      { m with content := "<<SYS>> " ++ m.content ++ " <</SYS>>" }
    else if m.role = .user then
      { m with content := "[INST] " ++ m.content ++ " [/INST]" }
    else m

/-- The request body produced by `Llama2.bedrock_format` (the embedding
keeps the structured form whose JSON encoding `json.dumps` returns). -/
structure LlamaBody where
  max_gen_len : Nat
  prompt : String
  temperature : ℚ
deriving DecidableEq, Repr

/-- `Llama2.bedrock_format` (model.py lines 120–132).  `rnd` is the value
drawn by `random.uniform(0, 1)`, used when `temperature` is absent from
the settings or falsy. -/
def llamaBedrockFormat (settings : ModelSettings) (rnd : ℚ)
    (msgs : List Message) : LlamaBody :=
  { max_gen_len := pyOrNat settings.max_gen_len 2048
    prompt := String.intercalate "\n" (msgs.map Message.content)
    temperature := pyOrQ settings.temperature rnd }

/-- One entry of the list `CohereCommand.format_messages` returns:
`{"role": …, "message": …}`. -/
structure CohereEntry where
  role : String
  message : String
deriving DecidableEq, Repr

/-- The `role_converter` mapping of `CohereCommand.format_messages`
(model.py line 185). -/
def cohereRoleConverter : Role → String
  | .user => "USER"
  | .system => "USER"
  | .assistant => "CHATBOT"

/-- `CohereCommand.format_messages` (model.py lines 183–191).  The Python
loop mutates each `system` message in place, prefixing its content with
`"## Instructions\n"`, and appends the (mutated) content to the output;
the embedding returns the updated message list together with the output
list. -/
def format_messages : List Message → List Message × List CohereEntry
  | [] => ([], [])
  | m :: ms =>
    let m' :=
      if m.role = .system then
        { m with content := "## Instructions\n" ++ m.content }
      else m
    let r := format_messages ms
    (m' :: r.1, ⟨cohereRoleConverter m.role, m'.content⟩ :: r.2)

/-- The request body produced by `CohereCommand.bedrock_format`. -/
structure CohereBody where
  prompt : String
  stop_sequences : List String
  temperature : ℚ
deriving DecidableEq, Repr

/-- `CohereCommand.bedrock_format` (model.py lines 162–173); returns the
message list as updated by `format_messages` together with the body. -/
def cohereBedrockFormat (settings : ModelSettings) (rnd : ℚ)
    (msgs : List Message) : List Message × CohereBody :=
  let r := format_messages msgs
  (r.1,
   { prompt :=
       String.intercalate "\n"
         (r.2.map fun c => c.role ++ ": " ++ c.message)
     stop_sequences := pyOrList settings.stop_sequences ["User:"]
     temperature := pyOrQ settings.temperature rnd })

/-- The request body produced by `CohereCommandR.bedrock_format`. -/
structure CohereRBody where
  message : String
  max_tokens : Nat
  stop_sequences : List String
  temperature : ℚ
deriving DecidableEq, Repr

/-- `CohereCommandR.bedrock_format` (model.py lines 221–234): same joined
prompt as `CohereCommand`, emitted under the `message` key with a fixed
`max_tokens` of 20000. -/
def cohereRBedrockFormat (settings : ModelSettings) (rnd : ℚ)
    (msgs : List Message) : List Message × CohereRBody :=
  let r := format_messages msgs
  (r.1,
   { message :=
       String.intercalate "\n"
         (r.2.map fun c => c.role ++ ": " ++ c.message)
     max_tokens := 20000
     stop_sequences := pyOrList settings.stop_sequences ["User:"]
     temperature := pyOrQ settings.temperature rnd })

/-- A Python exception surfaced by the embedding. -/
inductive PyExn where
  | indexError (msg : String)
deriving DecidableEq, Repr

/-- The request body produced by `Claude.bedrock_format`. -/
structure ClaudeBody where
  system : String
  max_tokens : Nat
  messages : List Message
  temperature : ℚ
  anthropic_version : String
deriving DecidableEq, Repr

/-- `Claude.bedrock_format` (model.py lines 240–254): `msgs.pop(0)`
removes the leading message and promotes its content to the top-level
`system` field; on an empty list `pop` raises
`IndexError: pop from empty list` (the failure the spec's error taxonomy
in §7 calls `MalformedInputError`). -/
def claudeBedrockFormat (settings : ModelSettings) (rnd : ℚ)
    (msgs : List Message) : Except PyExn ClaudeBody :=
  match msgs with
  | [] => .error (.indexError "pop from empty list")
  | system_message :: rest =>
    .ok
      { system := system_message.content
        max_tokens := pyOrNat settings.max_tokens 8000
        messages := rest
        temperature := pyOrQ settings.temperature rnd
        anthropic_version :=
          pyOrStr settings.anthropic_version "bedrock-2023-05-31" }

/-- A settings mapping with every key absent. -/
def noSettings : ModelSettings := {}

example :
    fix_and_merge_messages true
      [⟨.system, "a"⟩, ⟨.system, "b"⟩, ⟨.user, "c"⟩] =
      [⟨.system, "a\n\nb"⟩, ⟨.user, "c"⟩] := by decide

example :
    fix_and_merge_messages false
      [⟨.system, "a"⟩, ⟨.user, "b"⟩, ⟨.user, "c"⟩] =
      [⟨.user, "a\n\nb\n\nc"⟩] := by decide

example :
    normalizeSpec false
      [⟨.system, "a"⟩, ⟨.user, "b"⟩, ⟨.user, "c"⟩] =
      [⟨.user, "a\n\nb\n\nc"⟩] := by decide

example :
    (format_messages [⟨.system, "A"⟩, ⟨.user, "B"⟩]).2 =
      [⟨"USER", "## Instructions\nA"⟩, ⟨"USER", "B"⟩] := by decide

/-! ### Helper lemmas about the normalizer -/

/-- The role-alternation relation: the two messages carry distinct roles. -/
abbrev RoleNe (a b : Message) : Prop := a.role ≠ b.role

theorem fixAndMergeStep_ne_nil (s : Bool) (acc : List Message)
    (m : Message) : fixAndMergeStep s acc m ≠ [] := by
  unfold fixAndMergeStep
  cases acc with
  | nil => simp
  | cons last rest => dsimp only; split <;> simp

theorem chain'_fixAndMergeStep (s : Bool) (acc : List Message) (m : Message)
    (h : acc.Chain' RoleNe) : (fixAndMergeStep s acc m).Chain' RoleNe := by
  unfold fixAndMergeStep
  cases acc with
  | nil => simp
  | cons last rest =>
    dsimp only
    split
    case isTrue heq =>
      rw [List.chain'_cons'] at h ⊢
      exact ⟨fun y hy => h.1 y hy, h.2⟩
    case isFalse hne =>
      refine List.chain'_cons'.mpr ⟨?_, h⟩
      intro y hy
      simp only [List.head?_cons, Option.mem_def, Option.some.injEq] at hy
      subst hy
      exact fun hr => hne hr.symm

theorem chain'_foldl_step (s : Bool) (ms : List Message) :
    ∀ acc : List Message, acc.Chain' RoleNe →
      (ms.foldl (fixAndMergeStep s) acc).Chain' RoleNe := by
  induction ms with
  | nil => exact fun acc h => h
  | cons m ms ih =>
    exact fun acc h => ih _ (chain'_fixAndMergeStep s acc m h)

theorem chain'_fix_and_merge (s : Bool) (msgs : List Message) :
    (fix_and_merge_messages s msgs).Chain' RoleNe := by
  unfold fix_and_merge_messages
  rw [List.chain'_reverse]
  exact (chain'_foldl_step s msgs [] List.chain'_nil).imp
    fun a b hab => Ne.symm hab

theorem fixAndMergeStep_cons (s : Bool) (last : Message)
    (rest : List Message) (m : Message) :
    fixAndMergeStep s (last :: rest) m =
      if last.role = (demoteRole s m).role then
        { last with
            content :=
              last.content ++ "\n\n" ++ (demoteRole s m).content } :: rest
      else demoteRole s m :: last :: rest := rfl

theorem normalizeSpecGo_cons (s : Bool) (cur m : Message)
    (ms : List Message) :
    normalizeSpecGo s cur (m :: ms) =
      if (demoteRole s m).role = cur.role then
        normalizeSpecGo s
          { cur with
              content :=
                cur.content ++ "\n\n" ++ (demoteRole s m).content } ms
      else cur :: normalizeSpecGo s (demoteRole s m) ms := rfl

theorem normalizeSpec_cons (s : Bool) (m : Message) (ms : List Message) :
    normalizeSpec s (m :: ms) =
      normalizeSpecGo s (demoteRole s m) ms := rfl

theorem foldl_step_eq_go (s : Bool) (ms : List Message) :
    ∀ (cur : Message) (acc : List Message),
      (ms.foldl (fixAndMergeStep s) (cur :: acc)).reverse =
        acc.reverse ++ normalizeSpecGo s cur ms := by
  induction ms with
  | nil => intro cur acc; simp [normalizeSpecGo]
  | cons m ms ih =>
    intro cur acc
    rw [List.foldl_cons, fixAndMergeStep_cons, normalizeSpecGo_cons]
    by_cases hr : (demoteRole s m).role = cur.role
    · rw [if_pos hr.symm, if_pos hr]
      exact ih _ acc
    · rw [if_neg fun hh => hr hh.symm, if_neg hr]
      rw [ih _ (cur :: acc)]
      simp

theorem fix_and_merge_eq_normalizeSpec (s : Bool) (msgs : List Message) :
    fix_and_merge_messages s msgs = normalizeSpec s msgs := by
  cases msgs with
  | nil => rfl
  | cons m ms =>
    unfold fix_and_merge_messages normalizeSpec
    rw [List.foldl_cons]
    have h0 : fixAndMergeStep s [] m = [demoteRole s m] := rfl
    rw [h0]
    simpa using foldl_step_eq_go s ms (demoteRole s m) []

theorem normalizeSpecGo_length (s : Bool) (ms : List Message) :
    ∀ cur, (normalizeSpecGo s cur ms).length ≤ ms.length + 1 := by
  induction ms with
  | nil => intro cur; simp [normalizeSpecGo]
  | cons m ms ih =>
    intro cur
    unfold normalizeSpecGo
    dsimp only
    split
    · exact le_trans (ih _) (by simp)
    · simpa using Nat.succ_le_succ (ih _)

theorem demoteRole_false_ne_system (m : Message) :
    (demoteRole false m).role ≠ .system := by
  unfold demoteRole
  split
  case isTrue h => simp
  case isFalse h => exact fun hs => h ⟨rfl, hs⟩

theorem normalizeSpecGo_false_ne_system (ms : List Message) :
    ∀ cur, cur.role ≠ .system →
      ∀ x ∈ normalizeSpecGo false cur ms, x.role ≠ .system := by
  induction ms with
  | nil =>
    intro cur hc x hx
    simp only [normalizeSpecGo, List.mem_singleton] at hx
    subst hx; exact hc
  | cons m ms ih =>
    intro cur hc x hx
    rw [normalizeSpecGo_cons] at hx
    split at hx
    · refine ih _ ?_ x hx
      exact hc
    · rcases List.mem_cons.mp hx with h | h
      · subst h; exact hc
      · exact ih _ (demoteRole_false_ne_system m) x h

theorem demoteRole_false_of_ne_system (m : Message)
    (h : m.role ≠ .system) : demoteRole false m = m := by
  unfold demoteRole
  exact if_neg fun hc => h hc.2

theorem normalizeSpecGo_id (ms : List Message) :
    ∀ cur, (∀ x ∈ cur :: ms, x.role ≠ .system) →
      (cur :: ms).Chain' RoleNe →
      normalizeSpecGo false cur ms = cur :: ms := by
  induction ms with
  | nil => intro cur _ _; rfl
  | cons m ms ih =>
    intro cur hns hch
    unfold normalizeSpecGo
    dsimp only
    rw [demoteRole_false_of_ne_system m (hns m (by simp))]
    have hcm : cur.role ≠ m.role :=
      (List.chain'_cons'.mp hch).1 m rfl
    rw [if_neg fun hh => hcm hh.symm]
    rw [ih m (fun x hx => hns x (List.mem_cons_of_mem cur hx))
      (List.chain'_cons'.mp hch).2]

theorem fix_and_merge_false_fixpoint (l : List Message)
    (hns : ∀ x ∈ l, x.role ≠ .system) (hch : l.Chain' RoleNe) :
    fix_and_merge_messages false l = l := by
  rw [fix_and_merge_eq_normalizeSpec]
  cases l with
  | nil => rfl
  | cons m ms =>
    rw [normalizeSpec_cons, demoteRole_false_of_ne_system m (hns m (by simp))]
    exact normalizeSpecGo_id ms m hns hch

/-! ### Claim theorems about the normalizer -/

/-- C1: for every input message list and every `system_role_supported`
flag, the list returned by `fix_and_merge_messages` has no two adjacent
messages with the same role: for all `i`,
`out[i].role ≠ out[i+1].role`. -/
theorem fix_and_merge_no_adjacent_same_role (s : Bool)
    (msgs : List Message) (i : Nat)
    (h : i + 1 < (fix_and_merge_messages s msgs).length) :
    ((fix_and_merge_messages s msgs).get
        ⟨i, Nat.lt_of_succ_lt h⟩).role ≠
      ((fix_and_merge_messages s msgs).get ⟨i + 1, h⟩).role := by
  have hc := chain'_fix_and_merge s msgs
  rw [List.chain'_iff_get] at hc
  exact hc i (by omega)

/-- Witness for C1 at the concrete input
`[{system, "a"}, {user, "b"}, {user, "c"}]` with the flag `true`
and `i = 0`. -/
theorem fix_and_merge_no_adjacent_same_role_witness :
    ((fix_and_merge_messages true
        [⟨.system, "a"⟩, ⟨.user, "b"⟩, ⟨.user, "c"⟩]).get
          ⟨0, by decide⟩).role ≠
      ((fix_and_merge_messages true
        [⟨.system, "a"⟩, ⟨.user, "b"⟩, ⟨.user, "c"⟩]).get
          ⟨1, by decide⟩).role :=
  fix_and_merge_no_adjacent_same_role true
    [⟨.system, "a"⟩, ⟨.user, "b"⟩, ⟨.user, "c"⟩] 0 (by decide)

/-- C3: `fix_and_merge_messages` is exactly the single left-to-right pass
the spec describes (`normalizeSpec`: demote `system` to `user` when the
flag is false, merge into the last accepted message with a `"\n\n"`
separator when the roles agree, otherwise append), and consequently the
output list is never longer than the input list. -/
theorem fix_and_merge_single_pass (s : Bool) (msgs : List Message) :
    fix_and_merge_messages s msgs = normalizeSpec s msgs ∧
      (fix_and_merge_messages s msgs).length ≤ msgs.length := by
  refine ⟨fix_and_merge_eq_normalizeSpec s msgs, ?_⟩
  rw [fix_and_merge_eq_normalizeSpec]
  cases msgs with
  | nil => simp [normalizeSpec]
  | cons m ms =>
    rw [normalizeSpec_cons]
    simpa using normalizeSpecGo_length s ms (demoteRole s m)

/-- C7: running `fix_and_merge_messages` twice with
`system_role_supported = false` yields the same result as running it
once (role-demotion normalization is idempotent). -/
theorem fix_and_merge_false_idempotent (msgs : List Message) :
    fix_and_merge_messages false (fix_and_merge_messages false msgs) =
      fix_and_merge_messages false msgs := by
  apply fix_and_merge_false_fixpoint
  · intro x hx
    rw [fix_and_merge_eq_normalizeSpec] at hx
    cases msgs with
    | nil => simp [normalizeSpec] at hx
    | cons m ms =>
      rw [normalizeSpec_cons] at hx
      exact normalizeSpecGo_false_ne_system ms _
        (demoteRole_false_ne_system m) x hx
  · exact chain'_fix_and_merge false msgs

/-! ### Claim theorems about the provider formatters -/

/-- C2: for the Claude variant, `bedrock_format` applied to
`[{system, a}, {user, b}]` produces a body whose `system` field is `a`
and whose `messages` field is exactly `[{role: user, content: b}]`. -/
theorem claude_bedrock_format_system_and_messages
    (settings : ModelSettings) (rnd : ℚ) (a b : String) :
    ∃ body : ClaudeBody,
      claudeBedrockFormat settings rnd [⟨.system, a⟩, ⟨.user, b⟩] =
          .ok body ∧
        body.system = a ∧ body.messages = [⟨.user, b⟩] :=
  ⟨_, rfl, rfl, rfl⟩

/-- C5: `CohereCommand.format_messages` maps roles through
`{user ↦ USER, system ↦ USER, assistant ↦ CHATBOT}`, prefixing `system`
content with `"## Instructions\n"`; in particular `{system, a}` becomes
`{role: USER, message: "## Instructions\n" ++ a}`. -/
theorem cohere_format_messages_role_conversion
    (msgs : List Message) (a : String) :
    (format_messages msgs).2 =
        msgs.map (fun m =>
          ⟨cohereRoleConverter m.role,
            if m.role = .system then "## Instructions\n" ++ m.content
            else m.content⟩) ∧
      (format_messages [⟨.system, a⟩]).2 =
        [⟨"USER", "## Instructions\n" ++ a⟩] := by
  constructor
  · induction msgs with
    | nil => rfl
    | cons m ms ih =>
      by_cases hm : m.role = .system <;>
        simp [format_messages, hm, ih]
  · rfl

/-- C8: the Claude variant's `bedrock_format` fails on the empty message
list when popping the leading system message (`msgs.pop(0)` raises
`IndexError: pop from empty list`, the failure the spec's taxonomy calls
`MalformedInputError`). -/
theorem claude_bedrock_format_empty_fails
    (settings : ModelSettings) (rnd : ℚ) :
    claudeBedrockFormat settings rnd [] =
      .error (.indexError "pop from empty list") := rfl

/-- C9: `CohereCommand.format_messages` mutates the caller's list: every
`system` message's content is overwritten with the `"## Instructions\n"`
prefix prepended, so running `format_messages` again on the updated list
yields content carrying the prefix twice. -/
theorem cohere_format_messages_mutates_in_place (msgs : List Message) :
    (format_messages msgs).1 =
        msgs.map (fun m =>
          if m.role = .system then
            { m with content := "## Instructions\n" ++ m.content }
          else m) ∧
      (format_messages (format_messages [⟨.system, "A"⟩]).1).2 =
        [⟨"USER", "## Instructions\n## Instructions\nA"⟩] := by
  constructor
  · induction msgs with
    | nil => rfl
    | cons m ms ih =>
      by_cases hm : m.role = .system <;>
        simp [format_messages, hm, ih]
  · decide

/-- C6: for the Llama variant, the prompt built from
`[{system, a}, {user, b}]` (for any rendered scaffold and assistant hint,
in particular the schema-mode ones) wraps the post-normalization `system`
content in `<<SYS>> … <</SYS>>` and the `user` content in
`[INST] … [/INST]`. -/
theorem llama_prompt_wraps_special_tokens (scaffold hint : String)
    (settings : ModelSettings) (rnd : ℚ) (a b : String) :
    (llamaBedrockFormat settings rnd
        (buildPromptWith llamaFixAndMergeMessages scaffold hint
          [⟨.system, a⟩, ⟨.user, b⟩])).prompt =
      "<<SYS>> " ++ (scaffold ++ "\n\n" ++ a) ++ " <</SYS>>" ++ "\n" ++
        ("[INST] " ++ b ++ " [/INST]") ++ "\n" ++ hint := rfl

/-- Counterexample to C4: with `temperature` present in the settings and
equal to `0`, Python's `settings.get("temperature") or uniform(0, 1)`
treats the configured `0` as falsy, so the produced body carries the
random draw (here `1/2`) instead of the configured value `0`. -/
theorem temperature_zero_ignored :
    ({ temperature := some 0 } : ModelSettings).temperature = some 0 ∧
      (llamaBedrockFormat { temperature := some 0 } (1/2)
          [⟨.user, "x"⟩]).temperature = 1/2 ∧
      (1 / 2 : ℚ) ≠ 0 := by
  refine ⟨rfl, ?_, by norm_num⟩
  simp [llamaBedrockFormat, pyOrQ]

/-- C4 as amended: for every variant the produced `temperature` is
`pyOrQ settings.temperature rnd`; it equals the configured value whenever
that value is present and non-zero, and otherwise (key absent, or present
with the falsy value `0`) it is the draw of `uniform(0, 1)`, which lies
in `[0, 1)`. -/
theorem temperature_settings_or_random (settings : ModelSettings)
    (rnd : ℚ) (h0 : 0 ≤ rnd) (h1 : rnd < 1)
    (msgs : List Message) (m : Message) :
    (llamaBedrockFormat settings rnd msgs).temperature =
        pyOrQ settings.temperature rnd ∧
      ((cohereBedrockFormat settings rnd msgs).2).temperature =
        pyOrQ settings.temperature rnd ∧
      ((cohereRBedrockFormat settings rnd msgs).2).temperature =
        pyOrQ settings.temperature rnd ∧
      (∃ body : ClaudeBody,
        claudeBedrockFormat settings rnd (m :: msgs) = .ok body ∧
          body.temperature = pyOrQ settings.temperature rnd) ∧
      (∀ t, settings.temperature = some t → t ≠ 0 →
        pyOrQ settings.temperature rnd = t) ∧
      (settings.temperature = none ∨ settings.temperature = some 0 →
        0 ≤ pyOrQ settings.temperature rnd ∧
          pyOrQ settings.temperature rnd < 1) := by
  refine ⟨rfl, rfl, rfl, ⟨_, rfl, rfl⟩, ?_, ?_⟩
  · intro t ht hne
    simp [pyOrQ, ht, hne]
  · rintro (ht | ht) <;> simp [pyOrQ, ht] <;> exact ⟨h0, h1⟩

/-- Witness for the amended C4 at `settings = noSettings`, `rnd = 1/2`,
`msgs = []`, `m = {user, "x"}`. -/
theorem temperature_settings_or_random_witness :
    (0 : ℚ) ≤ 1/2 ∧ (1/2 : ℚ) < 1 ∧
      ((llamaBedrockFormat noSettings (1/2) []).temperature =
          pyOrQ noSettings.temperature (1/2) ∧
        ((cohereBedrockFormat noSettings (1/2) []).2).temperature =
          pyOrQ noSettings.temperature (1/2) ∧
        ((cohereRBedrockFormat noSettings (1/2) []).2).temperature =
          pyOrQ noSettings.temperature (1/2) ∧
        (∃ body : ClaudeBody,
          claudeBedrockFormat noSettings (1/2)
              (Message.mk .user "x" :: []) = .ok body ∧
            body.temperature = pyOrQ noSettings.temperature (1/2)) ∧
        (∀ t, noSettings.temperature = some t → t ≠ 0 →
          pyOrQ noSettings.temperature (1/2) = t) ∧
        (noSettings.temperature = none ∨
            noSettings.temperature = some 0 →
          0 ≤ pyOrQ noSettings.temperature (1/2) ∧
            pyOrQ noSettings.temperature (1/2) < 1)) :=
  ⟨by norm_num, by norm_num,
    temperature_settings_or_random noSettings (1/2)
      (by norm_num) (by norm_num) [] (Message.mk .user "x")⟩

/-! ### Shape of the prompt built by `Model.build_prompt` -/

theorem demoteRole_of_ne_system (s : Bool) (m : Message)
    (h : m.role ≠ .system) : demoteRole s m = m := by
  unfold demoteRole
  exact if_neg fun hc => h hc.2

theorem foldl_step_ne_nil (s : Bool) (ms : List Message) :
    ∀ acc : List Message, acc ≠ [] →
      ms.foldl (fixAndMergeStep s) acc ≠ [] := by
  induction ms with
  | nil => exact fun acc h => h
  | cons m ms ih =>
    exact fun acc _ => ih _ (fixAndMergeStep_ne_nil s acc m)

theorem fixAndMergeStep_getLast?_role (s : Bool) (acc : List Message)
    (m : Message) (h : acc ≠ []) :
    (fixAndMergeStep s acc m).getLast?.map Message.role =
      acc.getLast?.map Message.role := by
  cases acc with
  | nil => exact absurd rfl h
  | cons last rest =>
    rw [fixAndMergeStep_cons]
    split
    · cases rest with
      | nil => rfl
      | cons r rs => rw [List.getLast?_cons_cons, List.getLast?_cons_cons]
    · rw [List.getLast?_cons_cons]

theorem foldl_step_getLast?_role (s : Bool) (ms : List Message) :
    ∀ acc : List Message, acc ≠ [] →
      (ms.foldl (fixAndMergeStep s) acc).getLast?.map Message.role =
        acc.getLast?.map Message.role := by
  induction ms with
  | nil => intro acc _; rfl
  | cons m ms ih =>
    intro acc h
    rw [List.foldl_cons, ih _ (fixAndMergeStep_ne_nil s acc m),
      fixAndMergeStep_getLast?_role s acc m h]

theorem fixAndMergeStep_assistant_head (s : Bool) (acc : List Message)
    (h : String) :
    (fixAndMergeStep s acc (Message.mk .assistant h)).head?.map
        Message.role = some .assistant := by
  have hd : demoteRole s (Message.mk .assistant h) =
      Message.mk .assistant h :=
    demoteRole_of_ne_system s _ (by simp)
  cases acc with
  | nil =>
    rw [show fixAndMergeStep s [] (Message.mk .assistant h) =
      [demoteRole s (Message.mk .assistant h)] from rfl, hd]
    rfl
  | cons last rest =>
    rw [fixAndMergeStep_cons, hd]
    split
    case isTrue heq =>
      simp only [List.head?_cons, Option.map_some]
      exact congrArg some heq
    case isFalse hne => rfl

/-- C10: for every flag, every pair of rendered scaffold strings and
every input message list, `build_prompt` returns a non-empty list whose
last message has role `assistant`, and whose first message has role
`system` when `system_role_supported` is true and `user` otherwise. -/
theorem build_prompt_boundary_roles (s : Bool) (content hint : String)
    (messages : List Message) :
    build_prompt s content hint messages ≠ [] ∧
      (build_prompt s content hint messages).getLast?.map Message.role =
        some .assistant ∧
      (build_prompt s content hint messages).head?.map Message.role =
        some (if s then Role.system else Role.user) := by
  have hrepr :
      build_prompt s content hint messages =
        (fixAndMergeStep s
            (messages.foldl (fixAndMergeStep s)
              [demoteRole s (Message.mk .system content)])
            (Message.mk .assistant hint)).reverse := by
    show (List.foldl (fixAndMergeStep s) []
        (Message.mk .system content ::
          (messages ++ [Message.mk .assistant hint]))).reverse = _
    rw [List.foldl_cons,
      show fixAndMergeStep s [] (Message.mk .system content) =
        [demoteRole s (Message.mk .system content)] from rfl,
      List.foldl_append, List.foldl_cons, List.foldl_nil]
  have hacc1ne :
      messages.foldl (fixAndMergeStep s)
          [demoteRole s (Message.mk .system content)] ≠ [] :=
    foldl_step_ne_nil s messages _ (by simp)
  refine ⟨?_, ?_, ?_⟩
  · rw [hrepr]
    simpa using fixAndMergeStep_ne_nil s _ (Message.mk .assistant hint)
  · rw [hrepr, List.getLast?_reverse]
    exact fixAndMergeStep_assistant_head s _ hint
  · rw [hrepr, List.head?_reverse,
      fixAndMergeStep_getLast?_role s _ _ hacc1ne,
      foldl_step_getLast?_role s messages _ (by simp)]
    cases s <;> simp [demoteRole]
